import Mathlib

/-!
Verification of the folder/message metadata store of
`d_rats/ui/main_messages.py` (classes `MessageFolderInfo`,
`MessageFolders`, `MessageList`).

The store is embedded shallowly:

* a filesystem path is its list of `os.sep`-separated segments;
* a `ConfigParser` is an ordered association list of sections, each an
  ordered association list of option keys to values;
* the process state (`World`) carries the directories and regular files
  that exist, the on-disk `.db` registry files, a heap of live
  `ConfigParser` objects, and the module-level `_FOLDER_CACHE` mapping a
  folder path to the heap reference of its cached parser.

Every operation of the Python module is a function on `World`, with
exceptions rendered as `Except` results.
-/

namespace DRats

/-- A filesystem path, as the list of its `os.sep`-separated segments. -/
abbrev Path := List String

/-- `os.path.join p name` for a single path component. -/
def pathJoin (p : Path) (name : String) : Path := p ++ [name]

/-- `os.path.basename`: the last path segment. -/
def basename (p : Path) : String := p.getLastD ""

/-- `os.path.dirname`: everything before the last segment. -/
def dirname (p : Path) : Path := p.dropLast

/-- One registry section: ordered option key/value pairs. -/
abbrev CfgSection := List (String × String)

/-- A `ConfigParser`: ordered list of (section name, options). -/
abbrev Config := List (String × CfgSection)

/-- `ConfigParser.has_section`. -/
def hasSection (c : Config) (s : String) : Bool := c.any (fun e => e.1 == s)

/-- `ConfigParser.add_section` (the caller checks for duplicates). -/
def addSection (c : Config) (s : String) : Config := c ++ [(s, [])]

/-- `ConfigParser.remove_section`. -/
def removeSection (c : Config) (s : String) : Config :=
  c.filter (fun e => e.1 != s)

/-- Set an option inside one section, replacing an existing key. -/
def setOpt (sec : CfgSection) (k v : String) : CfgSection :=
  if sec.any (fun e => e.1 == k) then
    sec.map (fun e => if e.1 == k then (k, v) else e)
  else
    sec ++ [(k, v)]

/-- The storage effect of `ConfigParser.set c s k v` once
`BasicInterpolation.before_set` accepted the value (the check is
`beforeSetOk` below; accepted values are stored verbatim; section `s` is
assumed present). -/
def cfgSet (c : Config) (s k v : String) : Config :=
  c.map (fun e => if e.1 == s then (s, setOpt e.2 k v) else e)

/-- The raw stored value `ConfigParser.get` starts from (`none` models
`NoSectionError` / `NoOptionError`); the `BasicInterpolation.before_get`
pass on top of it is modelled by `cfgGetI` below. -/
def cfgGet (c : Config) (s k : String) : Option String :=
  match c.find? (fun e => e.1 == s) with
  | none => none
  | some e => (e.2.find? (fun o => o.1 == k)).map (fun o => o.2)

/-- The options of a section, `[]` when the section is absent or empty. -/
def sectionOpts (c : Config) (s : String) : CfgSection :=
  ((c.find? (fun e => e.1 == s)).map (fun e => e.2)).getD []

/-- Association list lookup (first match), as Python `dict` access. -/
def alist? {α β : Type} [BEq α] (l : List (α × β)) (k : α) : Option β :=
  (l.find? (fun e => e.1 == k)).map (fun e => e.2)

/-- Replace an existing binding, or append a new one. -/
def setAssoc {α β : Type} [BEq α] (l : List (α × β)) (k : α) (v : β) :
    List (α × β) :=
  if l.any (fun e => e.1 == k) then
    l.map (fun e => if e.1 == k then (k, v) else e)
  else
    l ++ [(k, v)]

/-- The mutable process state the Python module acts on. -/
structure World where
  /-- Directories that exist. -/
  dirs : List Path
  /-- Regular message files that exist (`.db` files are in `dbs`). -/
  files : List Path
  /-- On-disk `.db` registry files, keyed by owning folder path. -/
  dbs : List (Path × Config)
  /-- Live `ConfigParser` objects; a reference is an index here. -/
  heap : List Config
  /-- The module-level `_FOLDER_CACHE`: folder path to heap reference. -/
  cache : List (Path × Nat)
deriving DecidableEq, Repr

/-- Dereference a `ConfigParser` heap reference. -/
def heapGet (w : World) (r : Nat) : Config := w.heap.getD r []

/-- Overwrite a `ConfigParser` object in place. -/
def heapSet (w : World) (r : Nat) (c : Config) : World :=
  { w with heap := w.heap.set r c }

/-- `os.path.exists`: true for a directory, message file or `.db` file. -/
def pathExistsFS (w : World) (p : Path) : Bool :=
  w.dirs.contains p || w.files.contains p ||
    w.dbs.any (fun e => pathJoin e.1 ".db" == p)

/-- A live `MessageFolderInfo` instance: its `_path` and its `_config`
reference. -/
structure MessageFolderInfo where
  /-- The instance's `_path` attribute. -/
  path : Path
  /-- The heap reference held by the instance's `_config` attribute. -/
  cfgRef : Nat
deriving DecidableEq, Repr

/-- `MessageFolderInfo._save`: rewrite the whole `.db` file from the
in-memory parser. -/
def MessageFolderInfo.save (self : MessageFolderInfo) (w : World) : World :=
  { w with dbs := setAssoc w.dbs self.path (heapGet w self.cfgRef) }

/-- `MessageFolderInfo.__init__`: reuse the `_FOLDER_CACHE` entry for the
path if present; otherwise make a fresh parser, read the `.db` file if it
exists, `_save`, and cache the parser. -/
def mkFolderInfo (w : World) (fpath : Path) : World × MessageFolderInfo :=
  match alist? w.cache fpath with
  | some r => (w, ⟨fpath, r⟩)
  | none =>
    let c : Config :=
      match alist? w.dbs fpath with
      | some stored => stored
      | none => []
    let r := w.heap.length
    let w1 : World := { w with heap := w.heap ++ [c] }
    let info : MessageFolderInfo := ⟨fpath, r⟩
    let w2 := info.save w1
    ({ w2 with cache := w2.cache ++ [(fpath, r)] }, info)

/-- `MessageFolderInfo.name`: basename of the folder path. -/
def MessageFolderInfo.name (self : MessageFolderInfo) : String :=
  basename self.path

/-- The state change of a completed `MessageFolderInfo._set_prop`: key
by basename, add the section if missing, set the option, `_save`.  The
fallible version including `before_set`'s `ValueError` is `setPropI`
below. -/
def setProp (w : World) (self : MessageFolderInfo) (filename : Path)
    (prop value : String) : World :=
  let fn := basename filename
  let c := heapGet w self.cfgRef
  let c := if hasSection c fn then c else addSection c fn
  let c := cfgSet c fn prop value
  self.save (heapSet w self.cfgRef c)

/-- The raw storage view of `MessageFolderInfo._get_prop`: key by
basename; `NoSectionError` and `NoOptionError` both give `"Unknown"`.
The version applying `before_get` interpolation is `getPropI` below. -/
def getProp (w : World) (self : MessageFolderInfo) (filename : Path)
    (prop : String) : String :=
  match cfgGet (heapGet w self.cfgRef) (basename filename) prop with
  | some v => v
  | none => "Unknown"

/-- `get_msg_subject`. -/
def getMsgSubject (w : World) (self : MessageFolderInfo) (f : Path) : String :=
  getProp w self f "subject"

/-- `set_msg_subject`. -/
def setMsgSubject (w : World) (self : MessageFolderInfo) (f : Path)
    (subject : String) : World :=
  setProp w self f "subject" subject

/-- `get_msg_type`. -/
def getMsgType (w : World) (self : MessageFolderInfo) (f : Path) : String :=
  getProp w self f "type"

/-- `set_msg_type`. -/
def setMsgType (w : World) (self : MessageFolderInfo) (f : Path)
    (t : String) : World :=
  setProp w self f "type" t

/-- Python `str` of a `bool`. -/
def pyStr (b : Bool) : String := if b then "True" else "False"

/-- `get_msg_read`: true exactly when the stored value is `"True"`. -/
def getMsgRead (w : World) (self : MessageFolderInfo) (f : Path) : Bool :=
  getProp w self f "read" == "True"

/-- `set_msg_read`. -/
def setMsgRead (w : World) (self : MessageFolderInfo) (f : Path)
    (read : Bool) : World :=
  setProp w self f "read" (pyStr read)

/-- `get_msg_sender`. -/
def getMsgSender (w : World) (self : MessageFolderInfo) (f : Path) : String :=
  getProp w self f "sender"

/-- `set_msg_sender`. -/
def setMsgSender (w : World) (self : MessageFolderInfo) (f : Path)
    (sender : String) : World :=
  setProp w self f "sender" sender

/-- `get_msg_recip`. -/
def getMsgRecip (w : World) (self : MessageFolderInfo) (f : Path) : String :=
  getProp w self f "recip"

/-- `set_msg_recip`. -/
def setMsgRecip (w : World) (self : MessageFolderInfo) (f : Path)
    (recip : String) : World :=
  setProp w self f "recip" recip

/-- Python's `str.startswith(".")`: the first character is a dot. -/
def startsWithDot (s : String) : Bool :=
  match s.data with
  | [] => false
  | c :: _ => c == '.'

/-- Lexicographic order on character lists, as Python compares strings. -/
def charListLt : List Char → List Char → Bool
  | [], [] => false
  | [], _ :: _ => true
  | _ :: _, [] => false
  | a :: as, b :: bs =>
    if a < b then true
    else if b < a then false
    else charListLt as bs

/-- Python's `<` on strings. -/
def strLtB (a b : String) : Bool := charListLt a.data b.data

/-- The entries `glob(os.path.join(dir, "*"))` can return: existing paths
one level below `dir` whose name is nonempty and does not start with a
dot.  (`.db` files never match because their name starts with a dot.) -/
def globStar (w : World) (dir : Path) : List Path :=
  (w.dirs ++ w.files).filter
    (fun p => dirname p == dir && p != dir &&
      !startsWithDot (basename p) && basename p != "")

/-- Render a path back to its `os.sep`-joined string (used only to model
Python's `sorted` over the strings `glob` returns). -/
def pathToStr (p : Path) : String := String.intercalate "/" p

/-- The string order Python's `sorted` uses on glob results. -/
def pathLe (a b : Path) : Bool := !strLtB (pathToStr b) (pathToStr a)

/-- Insertion into a sorted list of paths. -/
def insertPath (x : Path) : List Path → List Path
  | [] => [x]
  | y :: ys => if pathLe x y then x :: y :: ys else y :: insertPath x ys

/-- `sorted` on a list of paths. -/
def sortPaths (l : List Path) : List Path := l.foldr insertPath []

/-- `MessageFolderInfo.files`: glob entries that are regular files and
whose full path does not start with a dot. -/
def filesOf (w : World) (self : MessageFolderInfo) : List Path :=
  (globStar w self.path).filter
    (fun p => w.files.contains p && !startsWithDot (p.headD ""))

/-- `MessageFolderInfo.subfolders`: sorted glob entries that are
directories, each turned into a `MessageFolderInfo` (which may populate
the cache and write `.db` files). -/
def subfoldersOf (w : World) (self : MessageFolderInfo) :
    World × List MessageFolderInfo :=
  (sortPaths (globStar w self.path)).foldl
    (fun acc entry =>
      if acc.1.dirs.contains entry then
        let r := mkFolderInfo acc.1 entry
        (r.1, acc.2 ++ [r.2])
      else acc)
    (w, [])

/-- `MessageFolderInfo.get_subfolder`: first subfolder with the given
name, `none` otherwise. -/
def getSubfolder (w : World) (self : MessageFolderInfo) (name : String) :
    World × Option MessageFolderInfo :=
  let r := subfoldersOf w self
  (r.1, r.2.find? (fun f => f.name == name))

/-- Errors raised by the modelled filesystem calls. -/
inductive OSErr where
  /-- `FileExistsError`, `errno` 17. -/
  | eexist
  /-- `FileNotFoundError`, `errno` 2. -/
  | enoent
deriving DecidableEq, Repr

/-- `MessageFolderInfo.create_subfolder`: `os.mkdir` swallowing
`errno` 17, then a `MessageFolderInfo` of the child path. -/
def createSubfolder (w : World) (self : MessageFolderInfo) (name : String) :
    World × Except OSErr MessageFolderInfo :=
  let p := pathJoin self.path name
  if pathExistsFS w p then
    -- mkdir raises FileExistsError, which create_subfolder swallows
    let r := mkFolderInfo w p
    (r.1, Except.ok r.2)
  else if !(w.dirs.contains self.path) then
    -- mkdir with a missing parent raises FileNotFoundError, which escapes
    (w, Except.error OSErr.enoent)
  else
    let w1 : World := { w with dirs := w.dirs ++ [p] }
    let r := mkFolderInfo w1 p
    (r.1, Except.ok r.2)

/-- `configparser.DuplicateSectionError` as raised by `create_msg`. -/
inductive CfgErr where
  /-- The section already exists. -/
  | duplicateSection
deriving DecidableEq, Repr

/-- `MessageFolderInfo.create_msg`: check whether the path exists, try
`add_section` (swallowing the duplicate error when the file is absent),
and return the joined path.  The parser is not saved here. -/
def createMsg (w : World) (self : MessageFolderInfo) (name : String) :
    World × Except CfgErr Path :=
  let ex := pathExistsFS w (pathJoin self.path name)
  let c := heapGet w self.cfgRef
  if hasSection c name then
    if ex then (w, Except.error CfgErr.duplicateSection)
    else (w, Except.ok (pathJoin self.path name))
  else
    (heapSet w self.cfgRef (addSection c name),
      Except.ok (pathJoin self.path name))

/-- `MessageFolderInfo.delete`: remove the section for the basename from
the in-memory parser (without saving), then `os.remove` the file, which
raises if the file is missing. -/
def deleteMsg (w : World) (self : MessageFolderInfo) (filename : Path) :
    World × Except OSErr Unit :=
  let fn := basename filename
  let w1 := heapSet w self.cfgRef (removeSection (heapGet w self.cfgRef) fn)
  let p := pathJoin self.path fn
  if w1.files.contains p then
    ({ w1 with files := w1.files.erase p }, Except.ok ())
  else
    (w1, Except.error OSErr.enoent)

/-- Re-root one path under the renamed directory. -/
def renameTree (oldP newP p : Path) : Path :=
  if oldP.isPrefixOf p then newP ++ p.drop oldP.length else p

/-- `MessageFolderInfo.rename`: `os.rename` the directory (failing when
the source is missing or the target exists), then update `_path`.  The
`_FOLDER_CACHE` keeps its entry under the old path. -/
def renameFolder (w : World) (self : MessageFolderInfo) (newName : String) :
    World × Except OSErr MessageFolderInfo :=
  let newPath := pathJoin (dirname self.path) newName
  if !(w.dirs.contains self.path) then
    (w, Except.error OSErr.enoent)
  else if pathExistsFS w newPath && newPath != self.path then
    (w, Except.error OSErr.eexist)
  else
    ({ w with
        dirs := w.dirs.map (renameTree self.path newPath),
        files := w.files.map (renameTree self.path newPath),
        dbs := w.dbs.map (fun e => (renameTree self.path newPath e.1, e.2)) },
      Except.ok ⟨newPath, self.cfgRef⟩)

/-- Errors escaping `MessageFolders._create_folder`. -/
inductive CreateErr where
  /-- `FolderError`: the wrapped non-`EEXIST` `OSError` from `mkdir`. -/
  | folderError
  /-- `AttributeError`: `create_subfolder` called on `None` after the
  walk to the parent failed. -/
  | attributeError
deriving DecidableEq, Repr

/-- The walk over `name.split(os.sep)[:-1]` in
`MessageFolders._create_folder`. -/
def walkSubfolders (w : World) (info : MessageFolderInfo) :
    List String → World × Option MessageFolderInfo
  | [] => (w, some info)
  | d :: rest =>
    match getSubfolder w info d with
    | (w1, none) => (w1, none)
    | (w1, some i) => walkSubfolders w1 i rest

/-- `MessageFolders._create_folder`: walk to the parent folder, then
`create_subfolder` on the final component; an escaping `OSError` (whose
`errno` is never 17 here) becomes a `FolderError`, and a failed walk
leaves `info = None`, so the call raises `AttributeError`. -/
def mfCreateFolder (w : World) (root : MessageFolderInfo) (name : Path) :
    World × Except CreateErr MessageFolderInfo :=
  match walkSubfolders w root name.dropLast with
  | (w1, none) => (w1, Except.error CreateErr.attributeError)
  | (w1, some info) =>
    match createSubfolder w1 info (basename name) with
    | (w2, Except.ok i) => (w2, Except.ok i)
    | (w2, Except.error _) => (w2, Except.error CreateErr.folderError)

/-- Whether a call completed without raising. -/
def exceptOk {ε α : Type} : Except ε α → Bool
  | Except.ok _ => true
  | Except.error _ => false

/-- The `BASE_FOLDERS` list. -/
def BASE_FOLDERS : List String :=
  ["Inbox", "Outbox", "Sent", "Trash", "Drafts"]

/-- `MessageFolders._folders_path`: `<config-dir>/messages`, created if
missing. -/
def foldersPath (w : World) (configDir : Path) : World × Path :=
  let p := pathJoin configDir "messages"
  if w.dirs.contains p then (w, p)
  else ({ w with dirs := w.dirs ++ [p] }, p)

/-- One iteration of `MessageFolders._ensure_default_folders`: create the
folder, swallow `FolderError`, and evaluate `info.subfolders()` for the
log line. -/
def ensureOneFolder (acc : World × Except CreateErr Unit)
    (root : MessageFolderInfo) (folder : String) :
    World × Except CreateErr Unit :=
  match acc with
  | (w, Except.error e) => (w, Except.error e)
  | (w, Except.ok ()) =>
    match mfCreateFolder w root [folder] with
    | (w1, Except.ok info) =>
      let r := subfoldersOf w1 info
      (r.1, Except.ok ())
    | (w1, Except.error CreateErr.folderError) => (w1, Except.ok ())
    | (w1, Except.error CreateErr.attributeError) =>
      (w1, Except.error CreateErr.attributeError)

/-- `MessageFolders._ensure_default_folders`. -/
def ensureDefaultFolders (w : World) (rootPath : Path) :
    World × Except CreateErr Unit :=
  let r := mkFolderInfo w rootPath
  BASE_FOLDERS.foldl (fun acc folder => ensureOneFolder acc r.2 folder)
    (r.1, Except.ok ())

/-- `MessageList.move_message`: construct the destination folder info,
`create_msg` the basename there (a duplicate means "already in the
destination", in which case the original path is returned unchanged),
otherwise `shutil.copy` the file and `delete` it from the source. -/
def moveMessage (w : World) (info : MessageFolderInfo) (msgRoot : Path)
    (path : Path) (newFolder : String) : World × Path :=
  let d := mkFolderInfo w (pathJoin msgRoot newFolder)
  match createMsg d.1 d.2 (basename path) with
  | (w1, Except.error CfgErr.duplicateSection) => (w1, path)
  | (w1, Except.ok newfn) =>
    let w2 : World :=
      { w1 with
          files := if w1.files.contains newfn then w1.files
                   else w1.files ++ [newfn] }
    let w3 := (deleteMsg w2 info path).1
    (w3, newfn)

/-! The `ConfigParser` constructed at `main_messages.py:101` uses the
default `BasicInterpolation`: `set` validates the value's interpolation
syntax (`before_set` raises `ValueError` on a stray `'%'`) and `get`
interpolates the stored raw value (`before_get` turns `'%%'` into `'%'`
and expands `%(name)s` from the section's raw options, raising on a
missing name, bad syntax or too-deep nesting).  `cfgSet`/`cfgGet` above
are the raw storage view; the functions below model the interpolation
layer, and `setPropI`/`getPropI` are the full fallible `_set_prop` /
`_get_prop`. -/

/-- Errors raised by `BasicInterpolation.before_get`; none of them is
caught by `_get_prop`, which handles only `NoSectionError` and
`NoOptionError`. -/
inductive InterpErr where
  /-- `InterpolationSyntaxError`: `'%'` not followed by `'%'` or a
  well-formed `(name)s`. -/
  | syntaxError
  /-- `InterpolationMissingOptionError`: `%(name)s` names no option. -/
  | missingOption
  /-- `InterpolationDepthError`: more than `MAX_INTERPOLATION_DEPTH`
  nested expansions. -/
  | depthError
deriving DecidableEq, Repr

/-- The `ValueError` raised by `BasicInterpolation.before_set`. -/
inductive SetErr where
  /-- Stray `'%'` in the value. -/
  | valueError
deriving DecidableEq, Repr

/-- Match `_KEYCRE`'s `([^)]+)\)s` at the front of the input (the part
of a `%(name)s` reference after `"%("`): returns the referenced name and
the total number of characters the `name)s` match consumed, `none` when
the regex does not match. -/
def scanKey (acc : List Char) : List Char → Option (List Char × Nat)
  | [] => none
  | c :: rest =>
    if c = ')' then
      match rest with
      | 's' :: _ => if acc = [] then none else some (acc.reverse, 2)
      | _ => none
    else
      match scanKey (c :: acc) rest with
      | some (nm, n) => some (nm, n + 1)
      | none => none

/-- One scanning pass of `BasicInterpolation._interpolate_some` over a
raw value: plain text is copied, `'%%'` becomes `'%'`, a `%(name)s`
reference is replaced by `expand name`, and any other use of `'%'` is an
`InterpolationSyntaxError`.  The fuel only bounds the recursion; every
call consumes at least one character, so `interpScan` below never
exhausts it. -/
def interpScanAux (expand : String → Except InterpErr (List Char)) :
    Nat → List Char → Except InterpErr (List Char)
  | 0, _ => Except.ok []
  | _ + 1, [] => Except.ok []
  | fuel + 1, c :: rest =>
    if c = '%' then
      match rest with
      | [] => Except.error InterpErr.syntaxError
      | c2 :: rest2 =>
        if c2 = '%' then
          match interpScanAux expand fuel rest2 with
          | Except.ok out => Except.ok ('%' :: out)
          | Except.error e => Except.error e
        else if c2 = '(' then
          match scanKey [] rest2 with
          | none => Except.error InterpErr.syntaxError
          | some (nm, n) =>
            match expand (String.mk nm) with
            | Except.error e => Except.error e
            | Except.ok vexp =>
              match interpScanAux expand fuel (rest2.drop n) with
              | Except.error e => Except.error e
              | Except.ok out => Except.ok (vexp ++ out)
        else Except.error InterpErr.syntaxError
    else
      match interpScanAux expand fuel rest with
      | Except.ok out => Except.ok (c :: out)
      | Except.error e => Except.error e

/-- The scanning pass with enough fuel for its input. -/
def interpScan (expand : String → Except InterpErr (List Char))
    (cs : List Char) : Except InterpErr (List Char) :=
  interpScanAux expand cs.length cs

/-- `BasicInterpolation.before_get` on a raw value, looking referenced
names up (lowercased by `optionxform`) among the section's raw options;
the depth models `MAX_INTERPOLATION_DEPTH`: each nested `%(name)s`
expansion descends one level. -/
def interpGet (sec : CfgSection) : Nat → String → Except InterpErr (List Char)
  | 0, _ => Except.error InterpErr.depthError
  | depth + 1, raw =>
    interpScan
      (fun nm =>
        match alist? sec nm.toLower with
        | none => Except.error InterpErr.missingOption
        | some v =>
          if v.data.contains '%' then interpGet sec depth v
          else Except.ok v.data)
      raw.data

/-- `value.replace("%%", "")`: the first step of `before_set` (fuel as
in `interpScanAux`). -/
def stripEscapesAux : Nat → List Char → List Char
  | 0, _ => []
  | _ + 1, [] => []
  | fuel + 1, c :: rest =>
    if c = '%' then
      match rest with
      | c2 :: rest2 =>
        if c2 = '%' then stripEscapesAux fuel rest2
        else c :: stripEscapesAux fuel (c2 :: rest2)
      | [] => [c]
    else c :: stripEscapesAux fuel rest

/-- `value.replace("%%", "")` with enough fuel for its input. -/
def stripEscapes (cs : List Char) : List Char :=
  stripEscapesAux cs.length cs

/-- `_KEYCRE.sub("", value)`: drop every `%(name)s` reference, keeping a
`'%'` that starts no match (the regex then retries from the next
character); fuel as in `interpScanAux`. -/
def stripKeyRefsAux : Nat → List Char → List Char
  | 0, _ => []
  | _ + 1, [] => []
  | fuel + 1, c :: rest =>
    if c = '%' then
      match rest with
      | c2 :: rest2 =>
        if c2 = '(' then
          match scanKey [] rest2 with
          | some (_, n) => stripKeyRefsAux fuel (rest2.drop n)
          | none => c :: stripKeyRefsAux fuel (c2 :: rest2)
        else c :: stripKeyRefsAux fuel (c2 :: rest2)
      | [] => [c]
    else c :: stripKeyRefsAux fuel rest

/-- `_KEYCRE.sub("", value)` with enough fuel for its input. -/
def stripKeyRefs (cs : List Char) : List Char :=
  stripKeyRefsAux cs.length cs

/-- `BasicInterpolation.before_set`'s acceptance check: strip `'%%'`
pairs, then `%(name)s` references; any `'%'` left is a `ValueError`. -/
def beforeSetOk (v : String) : Bool :=
  !(stripKeyRefs (stripEscapes v.data)).contains '%'

/-- `ConfigParser.get` including `before_get` interpolation:
`Except.ok none` stands for `NoSectionError`/`NoOptionError` (the two
errors `_get_prop` catches); interpolation errors pass through. -/
def cfgGetI (c : Config) (s k : String) : Except InterpErr (Option String) :=
  match c.find? (fun e => e.1 == s) with
  | none => Except.ok none
  | some e =>
    match e.2.find? (fun o => o.1 == k) with
    | none => Except.ok none
    | some o =>
      match interpGet e.2 10 o.2 with
      | Except.ok out => Except.ok (some (String.mk out))
      | Except.error err => Except.error err

/-- `_get_prop` with interpolation: `"Unknown"` for a missing section or
option, the interpolated value otherwise, and an uncaught interpolation
exception as an error. -/
def getPropI (w : World) (self : MessageFolderInfo) (filename : Path)
    (prop : String) : Except InterpErr String :=
  match cfgGetI (heapGet w self.cfgRef) (basename filename) prop with
  | Except.ok (some v) => Except.ok v
  | Except.ok none => Except.ok "Unknown"
  | Except.error e => Except.error e

/-- `_set_prop` including `before_set`: the section is ensured first, so
a value failing the syntax check leaves the just-added section in the
shared parser while the `ValueError` escapes and nothing is saved; an
accepted value behaves as the completed set `setProp`. -/
def setPropI (w : World) (self : MessageFolderInfo) (filename : Path)
    (prop value : String) : World × Option SetErr :=
  let fn := basename filename
  let c := heapGet w self.cfgRef
  let c1 := if hasSection c fn then c else addSection c fn
  if beforeSetOk value then
    (setProp w self filename prop value, none)
  else
    (heapSet w self.cfgRef c1, some SetErr.valueError)

/-- `set_msg_subject` with the `ValueError` path modelled. -/
def setMsgSubjectI (w : World) (self : MessageFolderInfo) (f : Path)
    (subject : String) : World × Option SetErr :=
  setPropI w self f "subject" subject

/-- `get_msg_subject` with interpolation errors modelled. -/
def getMsgSubjectI (w : World) (self : MessageFolderInfo) (f : Path) :
    Except InterpErr String :=
  getPropI w self f "subject"

/-- The value of a call that did not raise. -/
def exceptVal {ε α : Type} : Except ε α → Option α
  | Except.ok a => some a
  | Except.error _ => none

/-- Every `_FOLDER_CACHE` entry of `w` is still present, unchanged, in
`w'`: no operation invalidates the cache. -/
def cachePreserved (w w' : World) : Prop :=
  ∀ (q : Path) (r : Nat), alist? w.cache q = some r →
    alist? w'.cache q = some r

/-! ### General list and association-list lemmas -/

theorem getD_set_self {α : Type} :
    ∀ (l : List α) (r : Nat) (c d : α), r < l.length →
      (l.set r c).getD r d = c
  | [], r, _, _, h => absurd h (by simp)
  | _ :: _, 0, _, _, _ => rfl
  | _ :: l, r + 1, c, d, h =>
    getD_set_self l r c d (Nat.lt_of_succ_lt_succ h)

theorem getD_append_left {α : Type} :
    ∀ (l l' : List α) (r : Nat) (d : α), r < l.length →
      (l ++ l').getD r d = l.getD r d
  | [], _, r, _, h => absurd h (by simp)
  | _ :: _, _, 0, _, _ => rfl
  | _ :: l, l', r + 1, d, h =>
    getD_append_left l l' r d (Nat.lt_of_succ_lt_succ h)

theorem find?_of_any_eq_false {α : Type} {p : α → Bool} {l : List α}
    (h : l.any p = false) : l.find? p = none := by
  rw [List.find?_eq_none]
  exact List.any_eq_false.mp h

theorem find?_append_of_none {α : Type} {p : α → Bool} :
    ∀ {l₁ : List α} (l₂ : List α), l₁.find? p = none →
      (l₁ ++ l₂).find? p = l₂.find? p
  | [], _, _ => rfl
  | a :: l, l₂, h => by
    by_cases hp : p a
    · rw [List.find?_cons_of_pos l hp] at h
      exact absurd h (by simp)
    · rw [List.find?_cons_of_neg l hp] at h
      rw [List.cons_append, List.find?_cons_of_neg _ hp]
      exact find?_append_of_none l₂ h

theorem find?_map_write {α β : Type} [BEq α] [LawfulBEq α]
    (k : α) (v : β) :
    ∀ {l : List (α × β)}, l.any (fun e => e.1 == k) = true →
      (l.map (fun e => if e.1 == k then (k, v) else e)).find?
        (fun e => e.1 == k) = some (k, v)
  | [], h => by simp at h
  | e :: l, h => by
    by_cases he : (e.1 == k) = true
    · simp only [List.map_cons, he, reduceIte]
      exact List.find?_cons_of_pos (p := fun x : α × β => x.1 == k) _ (by simp)
    · have hef : (e.1 == k) = false := by simpa using he
      have h2 : l.any (fun e => e.1 == k) = true := by
        simpa [List.any_cons, hef] using h
      simp only [List.map_cons, he, Bool.false_eq_true, reduceIte]
      rw [List.find?_cons_of_neg (p := fun x : α × β => x.1 == k) _ (by simp [hef])]
      exact find?_map_write k v h2

/-- After writing the pair `(k, v)` (replace-or-append), looking up `k`
finds exactly `(k, v)`. -/
theorem find?_writePair {α β : Type} [BEq α] [LawfulBEq α]
    (l : List (α × β)) (k : α) (v : β) :
    ((if l.any (fun e => e.1 == k) then
        l.map (fun e => if e.1 == k then (k, v) else e)
      else l ++ [(k, v)]) : List (α × β)).find?
        (fun e => e.1 == k) = some (k, v) := by
  by_cases h : l.any (fun e => e.1 == k)
  · rw [if_pos h]
    exact find?_map_write k v h
  · rw [if_neg h]
    rw [find?_append_of_none _
      (find?_of_any_eq_false (by rwa [Bool.not_eq_true] at h))]
    exact List.find?_cons_of_pos (p := fun x : α × β => x.1 == k) _ (by simp)

theorem lookup_setAssoc {α β : Type} [BEq α] [LawfulBEq α]
    (l : List (α × β)) (k : α) (v : β) :
    alist? (setAssoc l k v) k = some v := by
  unfold alist? setAssoc
  rw [find?_writePair]
  rfl

theorem lookup_append_of_some {α β : Type} [BEq α]
    {l : List (α × β)} (l' : List (α × β)) {k : α} {v : β}
    (h : alist? l k = some v) : alist? (l ++ l') k = some v := by
  unfold alist? at *
  cases hf : l.find? (fun e => e.1 == k) with
  | none => simp [hf] at h
  | some e =>
    have hb : (l ++ l').find? (fun e => e.1 == k) = some e := by
      clear h
      induction l with
      | nil => simp [List.find?] at hf
      | cons a l ih =>
        by_cases hp : (a.1 == k) = true
        · rw [List.find?_cons_of_pos (p := fun x : α × β => x.1 == k) l hp] at hf
          rw [List.cons_append,
            List.find?_cons_of_pos (p := fun x : α × β => x.1 == k) _ hp]
          exact hf
        · rw [List.find?_cons_of_neg (p := fun x : α × β => x.1 == k) l
            (by simp [hp])] at hf
          rw [List.cons_append, List.find?_cons_of_neg
            (p := fun x : α × β => x.1 == k) _ (by simp [hp])]
          exact ih hf
    rw [hb]
    rw [hf] at h
    exact h

/-! ### ConfigParser lemmas -/

theorem find?_setOpt (sec : CfgSection) (k v : String) :
    (setOpt sec k v).find? (fun o => o.1 == k) = some (k, v) := by
  unfold setOpt
  exact find?_writePair sec k v

theorem hasSection_ensure (c : Config) (s : String) :
    hasSection (if hasSection c s then c else addSection c s) s = true := by
  by_cases h : hasSection c s
  · simp [h]
  · rw [if_neg h]
    unfold hasSection addSection at *
    simp [List.any_append]

theorem cfgGet_cfgSet_self (c : Config) (s k v : String)
    (h : hasSection c s = true) :
    cfgGet (cfgSet c s k v) s k = some v := by
  unfold cfgGet cfgSet
  induction c with
  | nil => simp [hasSection] at h
  | cons e es ih =>
    by_cases he : (e.1 == s) = true
    · simp only [List.map_cons, he, reduceIte]
      rw [List.find?_cons_of_pos (p := fun x : String × CfgSection => x.1 == s) _ (by simp)]
      simp [find?_setOpt]
    · have hef : (e.1 == s) = false := by simpa using he
      have h2 : hasSection es s = true := by
        unfold hasSection at h ⊢
        simpa [List.any_cons, hef] using h
      simp only [List.map_cons, he, Bool.false_eq_true, reduceIte]
      rw [List.find?_cons_of_neg (p := fun x : String × CfgSection => x.1 == s) _ (by simp [hef])]
      exact ih h2

theorem hasSection_removeSection (c : Config) (s : String) :
    hasSection (removeSection c s) s = false := by
  unfold hasSection removeSection
  rw [List.any_eq_false]
  intro e he
  have h2 := (List.mem_filter.mp he).2
  simpa using h2

theorem cfgGet_of_sectionOpts_nil {c : Config} {s : String}
    (h : sectionOpts c s = []) (k : String) : cfgGet c s k = none := by
  unfold cfgGet sectionOpts at *
  cases hf : c.find? (fun e => e.1 == s) with
  | none => rfl
  | some e =>
    rw [hf] at h
    simp at h
    simp [h]

/-! ### Operation-level lemmas -/

theorem heapGet_save (self : MessageFolderInfo) (w : World) (r : Nat) :
    heapGet (self.save w) r = heapGet w r := rfl

theorem heapGet_heapSet_self (w : World) (r : Nat) (c : Config)
    (h : r < w.heap.length) : heapGet (heapSet w r c) r = c :=
  getD_set_self _ _ _ _ h

theorem basename_single (s : String) : basename [s] = s := rfl

theorem basename_pathJoin (p : Path) (n : String) :
    basename (pathJoin p n) = n := by
  unfold basename pathJoin
  simp

theorem heapGet_setProp (w : World) (self : MessageFolderInfo)
    (g : Path) (prop v : String) (hr : self.cfgRef < w.heap.length) :
    heapGet (setProp w self g prop v) self.cfgRef =
      cfgSet (if hasSection (heapGet w self.cfgRef) (basename g) then
                heapGet w self.cfgRef
              else addSection (heapGet w self.cfgRef) (basename g))
        (basename g) prop v := by
  unfold setProp
  rw [heapGet_save]
  exact heapGet_heapSet_self w self.cfgRef _ hr

/-- Reading back a property just set, keyed by any filename with the
same basename, returns the written value. -/
theorem getProp_setProp_same (w : World) (self : MessageFolderInfo)
    (f g : Path) (prop v : String)
    (hr : self.cfgRef < w.heap.length)
    (hb : basename f = basename g) :
    getProp (setProp w self g prop v) self f prop = v := by
  unfold getProp
  rw [heapGet_setProp w self g prop v hr, hb,
    cfgGet_cfgSet_self _ _ _ _ (hasSection_ensure _ _)]

/-! ### Claim theorems -/

/-- C2: `create_msg name` raises `DuplicateSectionError` exactly when a
registry section named `name` already exists and the path
`<folder>/<name>` exists on disk; in every other case it returns the
joined path `<folder>/<name>` without raising. -/
theorem createMsg_duplicate_iff (w : World) (self : MessageFolderInfo)
    (n : String) :
    ((createMsg w self n).2 = Except.error CfgErr.duplicateSection ∨
      (createMsg w self n).2 = Except.ok (pathJoin self.path n)) ∧
    ((createMsg w self n).2 = Except.error CfgErr.duplicateSection ↔
      hasSection (heapGet w self.cfgRef) n = true ∧
        pathExistsFS w (pathJoin self.path n) = true) := by
  unfold createMsg
  by_cases h1 : hasSection (heapGet w self.cfgRef) n = true
  · by_cases h2 : pathExistsFS w (pathJoin self.path n) = true
    · simp [h1, h2]
    · simp [h1, h2]
  · simp [h1]

/-- Witness for C2 at a folder whose registry has section `"m1"` and
whose directory holds a file `"m1"`: `create_msg` raises. -/
theorem createMsg_duplicate_iff_witness :
    (createMsg
      ⟨[["f"]], [["f", "m1"]], [(["f"], [("m1", [])])],
        [[("m1", [])]], [(["f"], 0)]⟩
      ⟨["f"], 0⟩ "m1").2 = Except.error CfgErr.duplicateSection :=
  (createMsg_duplicate_iff
    ⟨[["f"]], [["f", "m1"]], [(["f"], [("m1", [])])],
      [[("m1", [])]], [(["f"], 0)]⟩
    ⟨["f"], 0⟩ "m1").2.mpr (by decide)

/-- C5: when the registry has no options stored under a filename's
basename (no section at all, or a freshly created empty section), the
four text getters return `"Unknown"`, `get_msg_read` returns `false`,
and none of them raises (they are total functions here). -/
theorem getters_default_unknown (w : World) (self : MessageFolderInfo)
    (f : Path)
    (h : sectionOpts (heapGet w self.cfgRef) (basename f) = []) :
    getMsgSubject w self f = "Unknown" ∧
    getMsgType w self f = "Unknown" ∧
    getMsgSender w self f = "Unknown" ∧
    getMsgRecip w self f = "Unknown" ∧
    getMsgRead w self f = false := by
  have hu : ∀ k, getProp w self f k = "Unknown" := by
    intro k
    unfold getProp
    rw [cfgGet_of_sectionOpts_nil h k]
  refine ⟨hu "subject", hu "type", hu "sender", hu "recip", ?_⟩
  unfold getMsgRead
  rw [hu "read"]
  decide

/-- Witness for C5 on a message just created by `create_msg` with no
properties set. -/
theorem getters_default_unknown_witness :
    (let W := (createMsg ⟨[["f"]], [], [(["f"], [])], [[]], [(["f"], 0)]⟩
        ⟨["f"], 0⟩ "m1").1
     getMsgSubject W ⟨["f"], 0⟩ ["m1"] = "Unknown" ∧
     getMsgType W ⟨["f"], 0⟩ ["m1"] = "Unknown" ∧
     getMsgSender W ⟨["f"], 0⟩ ["m1"] = "Unknown" ∧
     getMsgRecip W ⟨["f"], 0⟩ ["m1"] = "Unknown" ∧
     getMsgRead W ⟨["f"], 0⟩ ["m1"] = false) :=
  getters_default_unknown
    (createMsg ⟨[["f"]], [], [(["f"], [])], [[]], [(["f"], 0)]⟩
      ⟨["f"], 0⟩ "m1").1
    ⟨["f"], 0⟩ ["m1"] (by decide)

/-- `_set_prop` ends in `_save`, so the on-disk registry of the folder
equals the in-memory parser afterwards. -/
theorem setProp_dbs (w : World) (self : MessageFolderInfo) (f : Path)
    (prop v : String) :
    alist? (setProp w self f prop v).dbs self.path =
      some (heapGet (setProp w self f prop v) self.cfgRef) := by
  unfold setProp MessageFolderInfo.save
  exact lookup_setAssoc _ _ _

/-- `delete` never touches the `.db` file. -/
theorem deleteMsg_dbs (w : World) (self : MessageFolderInfo) (f : Path) :
    (deleteMsg w self f).1.dbs = w.dbs := by
  simp only [deleteMsg]
  split <;> rfl

/-- C3 counterexample: in a folder whose registry and `.db` file hold a
section for message `"m"`, `delete "m"` leaves the on-disk registry
different from the in-memory one (the section survives on disk). -/
theorem deleteMsg_leaves_disk_stale :
    (let w : World :=
      ⟨[["root"], ["root", "Inbox"]], [["root", "Inbox", "m"]],
        [(["root", "Inbox"], [("m", [("subject", "s")])])],
        [[("m", [("subject", "s")])]], [(["root", "Inbox"], 0)]⟩
     let r := deleteMsg w ⟨["root", "Inbox"], 0⟩ ["m"]
     exceptOk r.2 = true ∧
       alist? r.1.dbs ["root", "Inbox"] ≠ some (heapGet r.1 0)) := by
  constructor
  · decide
  · decide

/-- C3 amended: setting any of the five message properties immediately
rewrites the folder's whole `.db` file, so the on-disk registry equals
the in-memory registry after each set; deleting a message's section
mutates only the in-memory registry and leaves the `.db` file exactly as
it was. -/
theorem set_saves_delete_does_not (w : World) (self : MessageFolderInfo)
    (f : Path) (subj t snd rcp : String) (b : Bool) :
    (alist? (setMsgSubject w self f subj).dbs self.path =
      some (heapGet (setMsgSubject w self f subj) self.cfgRef)) ∧
    (alist? (setMsgType w self f t).dbs self.path =
      some (heapGet (setMsgType w self f t) self.cfgRef)) ∧
    (alist? (setMsgRead w self f b).dbs self.path =
      some (heapGet (setMsgRead w self f b) self.cfgRef)) ∧
    (alist? (setMsgSender w self f snd).dbs self.path =
      some (heapGet (setMsgSender w self f snd) self.cfgRef)) ∧
    (alist? (setMsgRecip w self f rcp).dbs self.path =
      some (heapGet (setMsgRecip w self f rcp) self.cfgRef)) ∧
    (deleteMsg w self f).1.dbs = w.dbs :=
  ⟨setProp_dbs w self f "subject" subj, setProp_dbs w self f "type" t,
    setProp_dbs w self f "read" (pyStr b),
    setProp_dbs w self f "sender" snd,
    setProp_dbs w self f "recip" rcp, deleteMsg_dbs w self f⟩

/-- C7: deleting a message that exists on disk succeeds, removes the
file, removes the registry section for its basename, and the message no
longer appears in `files()`. -/
theorem deleteMsg_removes (w : World) (self : MessageFolderInfo) (f : Path)
    (hf : pathJoin self.path (basename f) ∈ w.files)
    (hnd : w.files.Nodup) :
    (deleteMsg w self f).2 = Except.ok () ∧
    pathJoin self.path (basename f) ∉ (deleteMsg w self f).1.files ∧
    hasSection (heapGet (deleteMsg w self f).1 self.cfgRef)
      (basename f) = false ∧
    pathJoin self.path (basename f) ∉ filesOf (deleteMsg w self f).1 self := by
  have hc : (heapSet w self.cfgRef
      (removeSection (heapGet w self.cfgRef) (basename f))).files.contains
      (pathJoin self.path (basename f)) = true := by
    rw [List.elem_iff]
    exact hf
  have hres : deleteMsg w self f =
      (⟨w.dirs,
        (heapSet w self.cfgRef
          (removeSection (heapGet w self.cfgRef) (basename f))).files.erase
          (pathJoin self.path (basename f)),
        w.dbs,
        (heapSet w self.cfgRef
          (removeSection (heapGet w self.cfgRef) (basename f))).heap,
        w.cache⟩, Except.ok ()) := by
    unfold deleteMsg
    rw [if_pos hc]
    rfl
  have hmem : pathJoin self.path (basename f) ∉
      (deleteMsg w self f).1.files := by
    rw [hres]
    exact hnd.not_mem_erase
  refine ⟨by rw [hres], hmem, ?_, ?_⟩
  · rw [hres]
    show hasSection
      (heapGet (heapSet w self.cfgRef
        (removeSection (heapGet w self.cfgRef) (basename f)))
        self.cfgRef) (basename f) = false
    by_cases hr : self.cfgRef < w.heap.length
    · rw [heapGet_heapSet_self w self.cfgRef _ hr]
      exact hasSection_removeSection _ _
    · unfold heapGet heapSet
      rw [List.set_eq_of_length_le (Nat.le_of_not_lt hr)]
      rw [List.getD_eq_getElem?_getD, List.getElem?_eq_none
        (Nat.le_of_not_lt hr)]
      rfl
  · intro hmemf
    apply hmem
    unfold filesOf at hmemf
    have h1 := (List.mem_filter.mp hmemf).2
    have h2 : (deleteMsg w self f).1.files.contains
        (pathJoin self.path (basename f)) = true := by
      have h3 := (Bool.and_eq_true _ _).mp h1
      exact h3.1
    rw [List.elem_iff] at h2
    exact h2

/-- Witness for C7. -/
theorem deleteMsg_removes_witness :
    (let w : World :=
      ⟨[["f"]], [["f", "m1"]], [(["f"], [("m1", [])])],
        [[("m1", [])]], [(["f"], 0)]⟩
     (deleteMsg w ⟨["f"], 0⟩ ["m1"]).2 = Except.ok () ∧
     pathJoin ["f"] (basename ["m1"]) ∉ (deleteMsg w ⟨["f"], 0⟩ ["m1"]).1.files ∧
     hasSection (heapGet (deleteMsg w ⟨["f"], 0⟩ ["m1"]).1 0)
       (basename ["m1"]) = false ∧
     pathJoin ["f"] (basename ["m1"]) ∉
       filesOf (deleteMsg w ⟨["f"], 0⟩ ["m1"]).1 ⟨["f"], 0⟩) :=
  deleteMsg_removes
    ⟨[["f"]], [["f", "m1"]], [(["f"], [("m1", [])])],
      [[("m1", [])]], [(["f"], 0)]⟩
    ⟨["f"], 0⟩ ["m1"] (by decide) (by decide)

/-- C6: on a successful rename, `name()` returns the new name, and every
registry property remains retrievable, unchanged, through the renamed
folder object. -/
theorem renameFolder_name_and_props (w : World)
    (self : MessageFolderInfo) (newName : String)
    (h1 : self.path ∈ w.dirs)
    (h2 : pathExistsFS w (pathJoin (dirname self.path) newName) = false) :
    ∃ (w' : World) (self' : MessageFolderInfo),
      renameFolder w self newName = (w', Except.ok self') ∧
      self'.name = newName ∧
      ∀ (f : Path) (prop : String),
        getProp w' self' f prop = getProp w self f prop := by
  have hc : w.dirs.contains self.path = true := by
    rw [List.elem_iff]
    exact h1
  have hres : renameFolder w self newName =
      (⟨w.dirs.map (renameTree self.path
          (pathJoin (dirname self.path) newName)),
        w.files.map (renameTree self.path
          (pathJoin (dirname self.path) newName)),
        w.dbs.map (fun e => (renameTree self.path
          (pathJoin (dirname self.path) newName) e.1, e.2)),
        w.heap, w.cache⟩,
        Except.ok ⟨pathJoin (dirname self.path) newName, self.cfgRef⟩) := by
    unfold renameFolder
    rw [hc]
    simp only [Bool.not_true, Bool.false_eq_true, reduceIte]
    rw [h2]
    simp only [Bool.false_and, Bool.false_eq_true, reduceIte]
  refine ⟨_, _, hres, ?_, ?_⟩
  · show basename (pathJoin (dirname self.path) newName) = newName
    exact basename_pathJoin _ _
  · intro f prop
    rfl

/-- Witness for C6. -/
theorem renameFolder_name_and_props_witness :
    ∃ (w' : World) (self' : MessageFolderInfo),
      renameFolder
        ⟨[["r"], ["r", "old"]], [], [],
          [[("m1", [("subject", "s")])]], [(["r", "old"], 0)]⟩
        ⟨["r", "old"], 0⟩ "new" = (w', Except.ok self') ∧
      self'.name = "new" ∧
      ∀ (f : Path) (prop : String),
        getProp w' self' f prop =
          getProp ⟨[["r"], ["r", "old"]], [], [],
            [[("m1", [("subject", "s")])]], [(["r", "old"], 0)]⟩
            ⟨["r", "old"], 0⟩ f prop :=
  renameFolder_name_and_props
    ⟨[["r"], ["r", "old"]], [], [],
      [[("m1", [("subject", "s")])]], [(["r", "old"], 0)]⟩
    ⟨["r", "old"], 0⟩ "new" (by decide) (by decide)

/-- Constructing a `MessageFolderInfo` never touches message files. -/
theorem mkFolderInfo_files (w : World) (p : Path) :
    (mkFolderInfo w p).1.files = w.files := by
  unfold mkFolderInfo
  cases alist? w.cache p <;> rfl

/-- Constructing a `MessageFolderInfo` never touches directories. -/
theorem mkFolderInfo_dirs (w : World) (p : Path) :
    (mkFolderInfo w p).1.dirs = w.dirs := by
  unfold mkFolderInfo
  cases alist? w.cache p <;> rfl

/-- The constructed instance's `_path` is the requested path. -/
theorem mkFolderInfo_path (w : World) (p : Path) :
    (mkFolderInfo w p).2.path = p := by
  unfold mkFolderInfo
  cases alist? w.cache p <;> rfl

/-- Constructing a `MessageFolderInfo` leaves every live parser as it
was (the heap at most grows by one fresh parser). -/
theorem mkFolderInfo_heapGet (w : World) (p : Path) (r : Nat)
    (hr : r < w.heap.length) :
    heapGet (mkFolderInfo w p).1 r = heapGet w r := by
  unfold mkFolderInfo
  cases alist? w.cache p with
  | some _ => rfl
  | none =>
    show (w.heap ++ [_]).getD r [] = w.heap.getD r []
    exact getD_append_left _ _ _ _ hr

/-- C4 counterexample: with the messages root holding an existing
`Drafts` directory and no `X`, `_create_folder root "Drafts/X"` does not
fail at all — it succeeds and creates the directory. -/
theorem createFolder_drafts_x_succeeds :
    (let w : World := ⟨[["m"], ["m", "Drafts"]], [], [], [], []⟩
     let r0 := mkFolderInfo w ["m"]
     let r := mfCreateFolder r0.1 r0.2 ["Drafts", "X"]
     exceptOk r.2 = true ∧
       r.1.dirs.contains ["m", "Drafts", "X"] = true) := by
  constructor
  · decide
  · decide

/-- C4 amended: creating folder `"Drafts/X"` when `"Drafts"` exists but
`"X"` does not succeeds, and `"X"` subsequently appears in the `Drafts`
folder's `subfolders()`; creating `"NewFolder"` directly under an
existing root succeeds and appears in `subfolders()` of the root. -/
theorem createFolder_scenarios :
    (let w : World := ⟨[["m"], ["m", "Drafts"]], [], [], [], []⟩
     let r0 := mkFolderInfo w ["m"]
     let rX := mfCreateFolder r0.1 r0.2 ["Drafts", "X"]
     let drafts := mkFolderInfo rX.1 ["m", "Drafts"]
     let rN := mfCreateFolder rX.1 r0.2 ["NewFolder"]
     let root2 := mkFolderInfo rN.1 ["m"]
     exceptOk rX.2 = true ∧
     ((subfoldersOf drafts.1 drafts.2).2.map
       (fun i => i.name)).contains "X" = true ∧
     exceptOk rN.2 = true ∧
     ((subfoldersOf rN.1 root2.2).2.map
       (fun i => i.name)).contains "NewFolder" = true) := by
  refine ⟨?_, ?_, ?_, ?_⟩
  · decide
  · decide
  · decide
  · decide

/-- C1: when the destination folder's registry already has a section for
the moved file's basename and the destination file also exists on disk,
`move_message` returns the original path unchanged, no file is created,
deleted or overwritten anywhere, and the source folder's registry is
untouched. -/
theorem move_message_duplicate_noop (w : World)
    (info : MessageFolderInfo) (root path : Path) (nf : String)
    (hr : info.cfgRef < w.heap.length)
    (hsec : hasSection
      (heapGet (mkFolderInfo w (pathJoin root nf)).1
        (mkFolderInfo w (pathJoin root nf)).2.cfgRef)
      (basename path) = true)
    (hex : pathExistsFS (mkFolderInfo w (pathJoin root nf)).1
      (pathJoin (pathJoin root nf) (basename path)) = true) :
    (moveMessage w info root path nf).2 = path ∧
    (moveMessage w info root path nf).1.files = w.files ∧
    heapGet (moveMessage w info root path nf).1 info.cfgRef =
      heapGet w info.cfgRef := by
  have hp : (mkFolderInfo w (pathJoin root nf)).2.path =
      pathJoin root nf := mkFolderInfo_path w (pathJoin root nf)
  have hc : createMsg (mkFolderInfo w (pathJoin root nf)).1
      (mkFolderInfo w (pathJoin root nf)).2 (basename path) =
      ((mkFolderInfo w (pathJoin root nf)).1,
        Except.error CfgErr.duplicateSection) := by
    simp only [createMsg, hp]
    simp only [hsec, hex]
    simp
  have hm : moveMessage w info root path nf =
      ((mkFolderInfo w (pathJoin root nf)).1, path) := by
    simp only [moveMessage]
    rw [hc]
  rw [hm]
  exact ⟨rfl, mkFolderInfo_files w (pathJoin root nf),
    mkFolderInfo_heapGet w (pathJoin root nf) info.cfgRef hr⟩

/-- Witness for C1: `"m1"` exists (registry section and file) in
`Outbox`; moving `Inbox/m1` to `Outbox` is a no-op. -/
theorem move_message_duplicate_noop_witness :
    (let w : World :=
      ⟨[["cfg", "messages"], ["cfg", "messages", "Inbox"],
          ["cfg", "messages", "Outbox"]],
        [["cfg", "messages", "Inbox", "m1"],
          ["cfg", "messages", "Outbox", "m1"]],
        [(["cfg", "messages", "Outbox"], [("m1", [])])],
        [[("m1", [("subject", "s")])]],
        [(["cfg", "messages", "Inbox"], 0)]⟩
     let i : MessageFolderInfo := ⟨["cfg", "messages", "Inbox"], 0⟩
     (moveMessage w i ["cfg", "messages"]
       ["cfg", "messages", "Inbox", "m1"] "Outbox").2 =
        ["cfg", "messages", "Inbox", "m1"] ∧
     (moveMessage w i ["cfg", "messages"]
       ["cfg", "messages", "Inbox", "m1"] "Outbox").1.files = w.files ∧
     heapGet (moveMessage w i ["cfg", "messages"]
       ["cfg", "messages", "Inbox", "m1"] "Outbox").1 0 = heapGet w 0) :=
  move_message_duplicate_noop
    ⟨[["cfg", "messages"], ["cfg", "messages", "Inbox"],
        ["cfg", "messages", "Outbox"]],
      [["cfg", "messages", "Inbox", "m1"],
        ["cfg", "messages", "Outbox", "m1"]],
      [(["cfg", "messages", "Outbox"], [("m1", [])])],
      [[("m1", [("subject", "s")])]],
      [(["cfg", "messages", "Inbox"], 0)]⟩
    ⟨["cfg", "messages", "Inbox"], 0⟩ ["cfg", "messages"]
    ["cfg", "messages", "Inbox", "m1"] "Outbox"
    (by decide) (by decide) (by decide)

/-! ### Cache-preservation lemmas: no operation drops a cache entry -/

theorem cachePreserved_of_append {w w' : World}
    (h : ∃ l, w'.cache = w.cache ++ l) : cachePreserved w w' := by
  intro q r hq
  obtain ⟨l, hl⟩ := h
  rw [hl]
  exact lookup_append_of_some l hq

theorem cacheAppend_trans {w1 w2 w3 : World}
    (h1 : ∃ l, w2.cache = w1.cache ++ l)
    (h2 : ∃ l, w3.cache = w2.cache ++ l) :
    ∃ l, w3.cache = w1.cache ++ l := by
  obtain ⟨a, ha⟩ := h1
  obtain ⟨b, hb⟩ := h2
  exact ⟨a ++ b, by rw [hb, ha, List.append_assoc]⟩

theorem cacheAppend_mkFolderInfo (w : World) (p : Path) :
    ∃ l, (mkFolderInfo w p).1.cache = w.cache ++ l := by
  unfold mkFolderInfo
  cases alist? w.cache p with
  | some r => exact ⟨[], by simp⟩
  | none => exact ⟨[(p, w.heap.length)], rfl⟩

theorem setProp_cache (w : World) (self : MessageFolderInfo) (f : Path)
    (prop v : String) : (setProp w self f prop v).cache = w.cache := rfl

theorem createMsg_cache (w : World) (self : MessageFolderInfo)
    (n : String) : (createMsg w self n).1.cache = w.cache := by
  simp only [createMsg]
  split
  · split <;> rfl
  · rfl

theorem deleteMsg_cache (w : World) (self : MessageFolderInfo)
    (f : Path) : (deleteMsg w self f).1.cache = w.cache := by
  simp only [deleteMsg]
  split <;> rfl

theorem renameFolder_cache (w : World) (self : MessageFolderInfo)
    (n : String) : (renameFolder w self n).1.cache = w.cache := by
  simp only [renameFolder]
  split
  · rfl
  · split <;> rfl

theorem foldersPath_cache (w : World) (configDir : Path) :
    (foldersPath w configDir).1.cache = w.cache := by
  simp only [foldersPath]
  split <;> rfl

theorem createSubfolder_cache (w : World) (self : MessageFolderInfo)
    (n : String) :
    ∃ l, (createSubfolder w self n).1.cache = w.cache ++ l := by
  simp only [createSubfolder]
  split
  · exact cacheAppend_mkFolderInfo w _
  · split
    · exact ⟨[], by simp⟩
    · exact cacheAppend_mkFolderInfo _ _

theorem cacheAppend_foldl {γ β : Type}
    (step : (World × γ) → β → (World × γ))
    (hstep : ∀ acc e, ∃ l, (step acc e).1.cache = acc.1.cache ++ l) :
    ∀ (es : List β) (acc : World × γ),
      ∃ l, (es.foldl step acc).1.cache = acc.1.cache ++ l
  | [], acc => ⟨[], by simp⟩
  | e :: es, acc => by
    obtain ⟨l1, h1⟩ := hstep acc e
    obtain ⟨l2, h2⟩ := cacheAppend_foldl step hstep es (step acc e)
    exact ⟨l1 ++ l2, by
      rw [List.foldl_cons, h2, h1, List.append_assoc]⟩

theorem subfoldersOf_cache (w : World) (self : MessageFolderInfo) :
    ∃ l, (subfoldersOf w self).1.cache = w.cache ++ l := by
  unfold subfoldersOf
  exact cacheAppend_foldl _
    (fun acc entry => by
      split
      · exact cacheAppend_mkFolderInfo acc.1 entry
      · exact ⟨[], by simp⟩)
    _ (w, [])

theorem getSubfolder_cache (w : World) (self : MessageFolderInfo)
    (n : String) :
    ∃ l, (getSubfolder w self n).1.cache = w.cache ++ l := by
  unfold getSubfolder
  exact subfoldersOf_cache w self

theorem walkSubfolders_cache :
    ∀ (ds : List String) (w : World) (info : MessageFolderInfo),
      ∃ l, (walkSubfolders w info ds).1.cache = w.cache ++ l
  | [], w, info => ⟨[], by simp [walkSubfolders]⟩
  | d :: ds, w, info => by
    unfold walkSubfolders
    cases hg : getSubfolder w info d with
    | mk w1 o =>
      have hw1 : ∃ l, w1.cache = w.cache ++ l := by
        have h := getSubfolder_cache w info d
        rw [hg] at h
        exact h
      cases o with
      | none => exact hw1
      | some i =>
        dsimp only
        exact cacheAppend_trans hw1 (walkSubfolders_cache ds w1 i)

theorem mfCreateFolder_cache (w : World) (root : MessageFolderInfo)
    (name : Path) :
    ∃ l, (mfCreateFolder w root name).1.cache = w.cache ++ l := by
  unfold mfCreateFolder
  cases hg : walkSubfolders w root name.dropLast with
  | mk w1 o =>
    have hw1 : ∃ l, w1.cache = w.cache ++ l := by
      have h := walkSubfolders_cache name.dropLast w root
      rw [hg] at h
      exact h
    cases o with
    | none => exact hw1
    | some info =>
      dsimp only
      cases hcs : createSubfolder w1 info (basename name) with
      | mk w2 res =>
        have hw2 : ∃ l, w2.cache = w1.cache ++ l := by
          have h := createSubfolder_cache w1 info (basename name)
          rw [hcs] at h
          exact h
        cases res with
        | ok i =>
          dsimp only
          exact cacheAppend_trans hw1 hw2
        | error e =>
          dsimp only
          exact cacheAppend_trans hw1 hw2

theorem ensureOneFolder_cache (acc : World × Except CreateErr Unit)
    (root : MessageFolderInfo) (folder : String) :
    ∃ l, (ensureOneFolder acc root folder).1.cache = acc.1.cache ++ l := by
  obtain ⟨w, ex⟩ := acc
  cases ex with
  | error e => exact ⟨[], by simp [ensureOneFolder]⟩
  | ok u =>
    cases u
    unfold ensureOneFolder
    dsimp only
    cases hg : mfCreateFolder w root [folder] with
    | mk w1 res =>
      have hw1 : ∃ l, w1.cache = w.cache ++ l := by
        have h := mfCreateFolder_cache w root [folder]
        rw [hg] at h
        exact h
      cases res with
      | ok info =>
        dsimp only
        refine cacheAppend_trans hw1 ?_
        exact subfoldersOf_cache w1 info
      | error e =>
        cases e with
        | folderError =>
          dsimp only
          exact hw1
        | attributeError =>
          dsimp only
          exact hw1

theorem ensureDefaultFolders_cache (w : World) (rootPath : Path) :
    ∃ l, (ensureDefaultFolders w rootPath).1.cache = w.cache ++ l := by
  unfold ensureDefaultFolders
  refine cacheAppend_trans (cacheAppend_mkFolderInfo w rootPath) ?_
  exact cacheAppend_foldl _
    (fun acc folder =>
      ensureOneFolder_cache acc (mkFolderInfo w rootPath).2 folder)
    BASE_FOLDERS ((mkFolderInfo w rootPath).1, Except.ok ())

theorem moveMessage_cache (w : World) (info : MessageFolderInfo)
    (root path : Path) (nf : String) :
    ∃ l, (moveMessage w info root path nf).1.cache = w.cache ++ l := by
  unfold moveMessage
  dsimp only
  cases hc : createMsg (mkFolderInfo w (pathJoin root nf)).1
      (mkFolderInfo w (pathJoin root nf)).2 (basename path) with
  | mk w1 res =>
    have hw1 : ∃ l, w1.cache = w.cache ++ l := by
      have h := cacheAppend_mkFolderInfo w (pathJoin root nf)
      have h2 := createMsg_cache (mkFolderInfo w (pathJoin root nf)).1
        (mkFolderInfo w (pathJoin root nf)).2 (basename path)
      rw [hc] at h2
      rw [← h2] at h
      exact h
    cases res with
    | error e =>
      cases e
      dsimp only
      exact hw1
    | ok newfn =>
      dsimp only
      refine cacheAppend_trans hw1 ?_
      exact ⟨[], by rw [deleteMsg_cache]; simp⟩

/-- A construction hitting the cache returns the cached reference and
leaves the world untouched. -/
theorem mkFolderInfo_cached (w : World) (p : Path) (r : Nat)
    (h : alist? w.cache p = some r) :
    mkFolderInfo w p = (w, ⟨p, r⟩) := by
  unfold mkFolderInfo
  rw [h]

theorem getD_concat_self {α : Type} :
    ∀ (l : List α) (c d : α), (l ++ [c]).getD l.length d = c
  | [], _, _ => rfl
  | _ :: l, c, d => getD_concat_self l c d

/-- After any construction, the path is cached and maps to the
constructed instance's parser reference. -/
theorem mkFolderInfo_cache_lookup (w : World) (p : Path) :
    alist? (mkFolderInfo w p).1.cache p =
      some (mkFolderInfo w p).2.cfgRef := by
  cases hq : alist? w.cache p with
  | some r =>
    rw [mkFolderInfo_cached w p r hq]
    exact hq
  | none =>
    unfold mkFolderInfo
    rw [hq]
    dsimp only
    show alist? (w.cache ++ [(p, w.heap.length)]) p = some w.heap.length
    have hf : w.cache.find? (fun e => e.1 == p) = none := by
      unfold alist? at hq
      cases hfind : w.cache.find? (fun e => e.1 == p) with
      | none => rfl
      | some e =>
        rw [hfind] at hq
        simp at hq
    unfold alist?
    rw [find?_append_of_none _ hf,
      List.find?_cons_of_pos (p := fun x : Path × Nat => x.1 == p) _
        (by simp)]
    rfl

/-- In a well-formed world the constructed reference is live. -/
theorem mkFolderInfo_ref_lt (w : World) (p : Path)
    (hwf : ∀ (q : Path) (r : Nat), alist? w.cache q = some r →
      r < w.heap.length) :
    (mkFolderInfo w p).2.cfgRef < (mkFolderInfo w p).1.heap.length := by
  cases hq : alist? w.cache p with
  | some r =>
    rw [mkFolderInfo_cached w p r hq]
    exact hwf p r hq
  | none =>
    unfold mkFolderInfo
    rw [hq]
    dsimp only
    show w.heap.length < (w.heap ++ [_]).length
    simp

/-- An uncached construction loads the parser from the `.db` file when
one exists, and starts empty otherwise. -/
theorem mkFolderInfo_reads_db (w : World) (p : Path)
    (h : alist? w.cache p = none) :
    heapGet (mkFolderInfo w p).1 (mkFolderInfo w p).2.cfgRef =
      (alist? w.dbs p).getD [] := by
  cases hdb : alist? w.dbs p with
  | some stored =>
    unfold mkFolderInfo
    rw [h, hdb]
    dsimp only
    show (w.heap ++ [stored]).getD w.heap.length [] = stored
    exact getD_concat_self w.heap stored []
  | none =>
    unfold mkFolderInfo
    rw [h, hdb]
    dsimp only
    show (w.heap ++ [[]]).getD w.heap.length [] = ([] : Config)
    exact getD_concat_self w.heap [] []

/-- `_get_prop` reads only through the parser reference. -/
theorem getProp_cfgRef (w : World) (i j : MessageFolderInfo)
    (h : i.cfgRef = j.cfgRef) (f : Path) (prop : String) :
    getProp w i f prop = getProp w j f prop := by
  unfold getProp
  rw [h]

/-! ### Interpolation lemmas -/

theorem contains_cons_split {α : Type} [BEq α] [LawfulBEq α] {c x : α}
    {rest : List α} (h : (c :: rest).contains x = false) :
    ¬(c = x) ∧ rest.contains x = false := by
  constructor
  · intro he
    subst he
    rw [show ((c :: rest).contains c) = true from
      List.elem_iff.mpr (List.mem_cons_self c rest)] at h
    simp at h
  · cases hx : rest.contains x with
    | true =>
      rw [show ((c :: rest).contains x) = true from List.elem_iff.mpr
        (List.mem_cons_of_mem c (List.elem_iff.mp hx))] at h
      simp at h
    | false => rfl

theorem stripEscapesAux_no_percent :
    ∀ (fuel : Nat) (cs : List Char), cs.length ≤ fuel →
      cs.contains '%' = false → stripEscapesAux fuel cs = cs
  | 0, [], _, _ => rfl
  | 0, _ :: _, h, _ => absurd h (by simp)
  | _ + 1, [], _, _ => rfl
  | fuel + 1, c :: rest, h, hc => by
    obtain ⟨hcne, hrest⟩ := contains_cons_split hc
    have hlen : rest.length ≤ fuel := by
      simp only [List.length_cons] at h
      omega
    simp only [stripEscapesAux]
    rw [if_neg hcne, stripEscapesAux_no_percent fuel rest hlen hrest]

theorem stripKeyRefsAux_no_percent :
    ∀ (fuel : Nat) (cs : List Char), cs.length ≤ fuel →
      cs.contains '%' = false → stripKeyRefsAux fuel cs = cs
  | 0, [], _, _ => rfl
  | 0, _ :: _, h, _ => absurd h (by simp)
  | _ + 1, [], _, _ => rfl
  | fuel + 1, c :: rest, h, hc => by
    obtain ⟨hcne, hrest⟩ := contains_cons_split hc
    have hlen : rest.length ≤ fuel := by
      simp only [List.length_cons] at h
      omega
    simp only [stripKeyRefsAux]
    rw [if_neg hcne, stripKeyRefsAux_no_percent fuel rest hlen hrest]

/-- A value with no `'%'` passes `before_set`. -/
theorem beforeSetOk_no_percent (v : String)
    (hv : v.data.contains '%' = false) : beforeSetOk v = true := by
  unfold beforeSetOk stripEscapes stripKeyRefs
  rw [stripEscapesAux_no_percent _ _ le_rfl hv,
    stripKeyRefsAux_no_percent _ _ le_rfl hv, hv]
  rfl

theorem interpScanAux_no_percent
    (expand : String → Except InterpErr (List Char)) :
    ∀ (fuel : Nat) (cs : List Char), cs.length ≤ fuel →
      cs.contains '%' = false →
      interpScanAux expand fuel cs = Except.ok cs
  | 0, [], _, _ => rfl
  | 0, _ :: _, h, _ => absurd h (by simp)
  | _ + 1, [], _, _ => rfl
  | fuel + 1, c :: rest, h, hc => by
    obtain ⟨hcne, hrest⟩ := contains_cons_split hc
    have hlen : rest.length ≤ fuel := by
      simp only [List.length_cons] at h
      omega
    simp only [interpScanAux]
    rw [if_neg hcne, interpScanAux_no_percent expand fuel rest hlen hrest]

/-- A raw value with no `'%'` interpolates to itself. -/
theorem interpGet_no_percent (sec : CfgSection) (d : Nat) (raw : String)
    (hv : raw.data.contains '%' = false) :
    interpGet sec (d + 1) raw = Except.ok raw.data := by
  unfold interpGet interpScan
  exact interpScanAux_no_percent _ _ _ le_rfl hv

/-- Reading back, with interpolation, a just-set `'%'`-free value
returns exactly that value. -/
theorem cfgGetI_cfgSet_self (c : Config) (s k v : String)
    (h : hasSection c s = true) (hv : v.data.contains '%' = false) :
    cfgGetI (cfgSet c s k v) s k = Except.ok (some v) := by
  unfold cfgGetI cfgSet
  induction c with
  | nil => simp [hasSection] at h
  | cons e es ih =>
    by_cases he : (e.1 == s) = true
    · simp only [List.map_cons, he, reduceIte]
      rw [List.find?_cons_of_pos
        (p := fun x : String × CfgSection => x.1 == s) _ (by simp)]
      dsimp only
      rw [find?_setOpt]
      dsimp only
      have hig : interpGet (setOpt e.2 k v) 10 v = Except.ok v.data :=
        interpGet_no_percent (setOpt e.2 k v) 9 v hv
      rw [hig]
    · have hef : (e.1 == s) = false := by simpa using he
      have h2 : hasSection es s = true := by
        unfold hasSection at h ⊢
        simpa [List.any_cons, hef] using h
      simp only [List.map_cons, he, Bool.false_eq_true, reduceIte]
      rw [List.find?_cons_of_neg
        (p := fun x : String × CfgSection => x.1 == s) _ (by simp [hef])]
      exact ih h2

/-- `_get_prop` with interpolation reads only through the parser
reference. -/
theorem getPropI_cfgRef (w : World) (i j : MessageFolderInfo)
    (h : i.cfgRef = j.cfgRef) (f : Path) (prop : String) :
    getPropI w i f prop = getPropI w j f prop := by
  unfold getPropI
  rw [h]

/-- A value accepted by `before_set` completes exactly as the raw
`setProp`. -/
theorem setPropI_ok (w : World) (self : MessageFolderInfo) (f : Path)
    (prop v : String) (hv : beforeSetOk v = true) :
    setPropI w self f prop v = (setProp w self f prop v, none) := by
  simp only [setPropI]
  rw [if_pos hv]

/-- A completed set of a `'%'`-free value is read back verbatim by the
interpolating getter, keyed by any filename with the same basename. -/
theorem getPropI_setProp_same (w : World) (self : MessageFolderInfo)
    (f g : Path) (prop v : String)
    (hr : self.cfgRef < w.heap.length)
    (hb : basename f = basename g)
    (hv : v.data.contains '%' = false) :
    getPropI (setProp w self g prop v) self f prop = Except.ok v := by
  unfold getPropI
  rw [heapGet_setProp w self g prop v hr, hb,
    cfgGetI_cfgSet_self _ _ _ _ (hasSection_ensure _ _) hv]

/-- C9: constructing a second `MessageFolderInfo` for an already-cached
path leaves the world unchanged and hands back the same parser
reference (so the registry is loaded from `.db` only on the first,
uncached construction, whose parser content is exactly the `.db` file's
or empty); a property set through one instance is observable through
the other — the interpolating getter gives the two instances identical
results, and for a value free of `'%'` (so that `before_set` accepts it
and `before_get` returns it unchanged) both read back exactly the value
set; and no operation of the module removes or changes an existing
`_FOLDER_CACHE` entry. -/
theorem folder_registry_cache_shared (w : World) (p f : Path)
    (prop v : String) (self : MessageFolderInfo) (n : String)
    (nm root pth : Path) (nf : String) (cfgDir : Path)
    (hwf : ∀ (q : Path) (r : Nat), alist? w.cache q = some r →
      r < w.heap.length) :
    (mkFolderInfo (mkFolderInfo w p).1 p).1 = (mkFolderInfo w p).1 ∧
    (mkFolderInfo (mkFolderInfo w p).1 p).2 =
      ⟨p, (mkFolderInfo w p).2.cfgRef⟩ ∧
    getPropI ((setPropI (mkFolderInfo w p).1 (mkFolderInfo w p).2
        f prop v).1)
      (mkFolderInfo (mkFolderInfo w p).1 p).2 f prop =
      getPropI ((setPropI (mkFolderInfo w p).1 (mkFolderInfo w p).2
          f prop v).1)
        (mkFolderInfo w p).2 f prop ∧
    (v.data.contains '%' = false →
      getPropI ((setPropI (mkFolderInfo w p).1 (mkFolderInfo w p).2
          f prop v).1)
        (mkFolderInfo (mkFolderInfo w p).1 p).2 f prop = Except.ok v) ∧
    (alist? w.cache p = none →
      heapGet (mkFolderInfo w p).1 (mkFolderInfo w p).2.cfgRef =
        (alist? w.dbs p).getD []) ∧
    cachePreserved w (mkFolderInfo w p).1 ∧
    cachePreserved w (setProp w self f prop v) ∧
    cachePreserved w (createMsg w self n).1 ∧
    cachePreserved w (deleteMsg w self f).1 ∧
    cachePreserved w (renameFolder w self n).1 ∧
    cachePreserved w (createSubfolder w self n).1 ∧
    cachePreserved w (subfoldersOf w self).1 ∧
    cachePreserved w (getSubfolder w self n).1 ∧
    cachePreserved w (mfCreateFolder w self nm).1 ∧
    cachePreserved w (foldersPath w cfgDir).1 ∧
    cachePreserved w (ensureDefaultFolders w root).1 ∧
    cachePreserved w (moveMessage w self root pth nf).1 := by
  have hsame : mkFolderInfo (mkFolderInfo w p).1 p =
      ((mkFolderInfo w p).1, ⟨p, (mkFolderInfo w p).2.cfgRef⟩) :=
    mkFolderInfo_cached (mkFolderInfo w p).1 p
      (mkFolderInfo w p).2.cfgRef (mkFolderInfo_cache_lookup w p)
  have hof : ∀ {w' : World}, w'.cache = w.cache → cachePreserved w w' := by
    intro w' h q r hq
    rw [h]
    exact hq
  refine ⟨by rw [hsame], by rw [hsame], ?_, ?_, ?_,
    ?_, ?_, ?_, ?_, ?_, ?_, ?_, ?_, ?_, ?_, ?_, ?_⟩
  · exact getPropI_cfgRef _ _ _ (by rw [hsame]) f prop
  · intro hv
    rw [getPropI_cfgRef _ (mkFolderInfo (mkFolderInfo w p).1 p).2
      (mkFolderInfo w p).2 (by rw [hsame])]
    rw [setPropI_ok _ _ _ _ _ (beforeSetOk_no_percent v hv)]
    exact getPropI_setProp_same _ _ _ _ _ _
      (mkFolderInfo_ref_lt w p hwf) rfl hv
  · exact mkFolderInfo_reads_db w p
  · exact cachePreserved_of_append (cacheAppend_mkFolderInfo w p)
  · exact hof (setProp_cache w self f prop v)
  · exact hof (createMsg_cache w self n)
  · exact hof (deleteMsg_cache w self f)
  · exact hof (renameFolder_cache w self n)
  · exact cachePreserved_of_append (createSubfolder_cache w self n)
  · exact cachePreserved_of_append (subfoldersOf_cache w self)
  · exact cachePreserved_of_append (getSubfolder_cache w self n)
  · exact cachePreserved_of_append (mfCreateFolder_cache w self nm)
  · exact hof (foldersPath_cache w cfgDir)
  · exact cachePreserved_of_append (ensureDefaultFolders_cache w root)
  · exact cachePreserved_of_append (moveMessage_cache w self root pth nf)

/-- Witness for C9: in a fresh world holding a `.db` for folder `"f"`,
a `'%'`-free subject set through the first instance is read back,
interpolation included, through a second instance constructed for the
same path. -/
theorem folder_registry_cache_shared_witness :
    getPropI
      ((setPropI
        (mkFolderInfo
          ⟨[["f"]], [], [(["f"], [("m1", [("subject", "s")])])], [], []⟩
          ["f"]).1
        (mkFolderInfo
          ⟨[["f"]], [], [(["f"], [("m1", [("subject", "s")])])], [], []⟩
          ["f"]).2 ["m1"] "subject" "v").1)
      (mkFolderInfo
        (mkFolderInfo
          ⟨[["f"]], [], [(["f"], [("m1", [("subject", "s")])])], [], []⟩
          ["f"]).1 ["f"]).2 ["m1"] "subject" = Except.ok "v" :=
  (folder_registry_cache_shared
    ⟨[["f"]], [], [(["f"], [("m1", [("subject", "s")])])], [], []⟩
    ["f"] ["m1"] "subject" "v" ⟨["f"], 0⟩ "x" ["y"] ["r"] ["r", "z"]
    "Inbox" ["cfg"] (fun _ _ h => nomatch h)).2.2.2.1 (by decide)

/-! ### Default-folder lemmas -/

theorem foldl_world_inv {γ β : Type} (step : (World × γ) → β → (World × γ))
    (P : World → Prop)
    (hstep : ∀ acc e, P acc.1 → P (step acc e).1) :
    ∀ (es : List β) (acc : World × γ), P acc.1 → P (es.foldl step acc).1
  | [], _, h => h
  | e :: es, acc, h =>
    foldl_world_inv step P hstep es (step acc e) (hstep acc e h)

/-- `subfolders()` only constructs folder infos: it never changes the
directories or message files on disk. -/
theorem subfoldersOf_world (w : World) (self : MessageFolderInfo) :
    (subfoldersOf w self).1.dirs = w.dirs ∧
    (subfoldersOf w self).1.files = w.files := by
  unfold subfoldersOf
  refine foldl_world_inv _
    (fun x => x.dirs = w.dirs ∧ x.files = w.files) ?_ _ (w, []) ⟨rfl, rfl⟩
  intro acc e h
  split
  · dsimp only
    constructor
    · rw [mkFolderInfo_dirs]
      exact h.1
    · rw [mkFolderInfo_files]
      exact h.2
  · exact h

/-- `create_subfolder name` under an existing parent directory, when no
plain file occupies the target path and `name` is not `".db"`, succeeds
and ensures the target directory exists, touching nothing else. -/
theorem createSubfolder_base (w : World) (root : MessageFolderInfo)
    (b : String) (hb : b ≠ ".db")
    (hroot : root.path ∈ w.dirs)
    (hfile : pathJoin root.path b ∉ w.files) :
    ∃ (w1 : World) (i : MessageFolderInfo),
      createSubfolder w root b = (w1, Except.ok i) ∧
      pathJoin root.path b ∈ w1.dirs ∧
      w1.files = w.files ∧
      ∃ l, w1.dirs = w.dirs ++ l := by
  by_cases hex : pathExistsFS w (pathJoin root.path b) = true
  · have hdir : pathJoin root.path b ∈ w.dirs := by
      unfold pathExistsFS at hex
      rcases Bool.or_eq_true_iff.mp hex with h12 | h3
      · rcases Bool.or_eq_true_iff.mp h12 with h1 | h2
        · exact List.elem_iff.mp h1
        · exact absurd (List.elem_iff.mp h2) hfile
      · rw [List.any_eq_true] at h3
        obtain ⟨e, _, he⟩ := h3
        have heq : pathJoin e.1 ".db" = pathJoin root.path b := by
          simpa using he
        have hlast := congrArg (fun l : Path => l.getLastD "") heq
        have hdb : ".db" = b := by
          simpa [pathJoin] using hlast
        exact (hb hdb.symm).elim
    refine ⟨(mkFolderInfo w (pathJoin root.path b)).1,
      (mkFolderInfo w (pathJoin root.path b)).2, ?_, ?_, ?_, ?_⟩
    · unfold createSubfolder
      rw [if_pos hex]
    · rw [mkFolderInfo_dirs]
      exact hdir
    · exact mkFolderInfo_files w _
    · exact ⟨[], by simp [mkFolderInfo_dirs]⟩
  · have hcont : w.dirs.contains root.path = true := List.elem_iff.mpr hroot
    have hres : createSubfolder w root b =
        ((mkFolderInfo
          { w with dirs := w.dirs ++ [pathJoin root.path b] }
          (pathJoin root.path b)).1,
        Except.ok (mkFolderInfo
          { w with dirs := w.dirs ++ [pathJoin root.path b] }
          (pathJoin root.path b)).2) := by
      unfold createSubfolder
      rw [if_neg hex]
      rw [hcont]
      rfl
    refine ⟨_, _, hres, ?_, ?_, ?_⟩
    · rw [mkFolderInfo_dirs]
      exact List.mem_append_right _ (by simp)
    · exact mkFolderInfo_files _ _
    · rw [mkFolderInfo_dirs]
      exact ⟨[pathJoin root.path b], rfl⟩

/-- `_create_folder root name` for a single-component `name`. -/
theorem mfCreateFolder_base (w : World) (root : MessageFolderInfo)
    (b : String) (hb : b ≠ ".db")
    (hroot : root.path ∈ w.dirs)
    (hfile : pathJoin root.path b ∉ w.files) :
    ∃ (w1 : World) (i : MessageFolderInfo),
      mfCreateFolder w root [b] = (w1, Except.ok i) ∧
      pathJoin root.path b ∈ w1.dirs ∧
      w1.files = w.files ∧
      ∃ l, w1.dirs = w.dirs ++ l := by
  obtain ⟨w1, i, hcs, hmem, hfe, hext⟩ :=
    createSubfolder_base w root b hb hroot hfile
  refine ⟨w1, i, ?_, hmem, hfe, hext⟩
  unfold mfCreateFolder
  simp only [walkSubfolders, List.dropLast]
  rw [basename_single, hcs]

/-- One `_ensure_default_folders` iteration in the `ok` state. -/
theorem ensureOneFolder_base (w : World) (root : MessageFolderInfo)
    (b : String) (hb : b ≠ ".db")
    (hroot : root.path ∈ w.dirs)
    (hfile : pathJoin root.path b ∉ w.files) :
    (ensureOneFolder (w, Except.ok ()) root b).2 = Except.ok () ∧
    pathJoin root.path b ∈ (ensureOneFolder (w, Except.ok ()) root b).1.dirs ∧
    (ensureOneFolder (w, Except.ok ()) root b).1.files = w.files ∧
    ∃ l, (ensureOneFolder (w, Except.ok ()) root b).1.dirs = w.dirs ++ l := by
  obtain ⟨w1, i, hmf, hmem, hfe, hext⟩ :=
    mfCreateFolder_base w root b hb hroot hfile
  have hres : ensureOneFolder (w, Except.ok ()) root b =
      ((subfoldersOf w1 i).1, Except.ok ()) := by
    unfold ensureOneFolder
    dsimp only
    rw [hmf]
  rw [hres]
  obtain ⟨hd, hf⟩ := subfoldersOf_world w1 i
  refine ⟨rfl, ?_, ?_, ?_⟩
  · rw [hd]
    exact hmem
  · rw [hf]
    exact hfe
  · rw [hd]
    exact hext

/-- The `_ensure_default_folders` loop, for any run of folder names that
are not `".db"` and are not shadowed by plain files: it never raises,
creates every directory, and touches no message file. -/
theorem ensure_fold (root : MessageFolderInfo) :
    ∀ (bs : List String) (w : World),
      root.path ∈ w.dirs →
      (∀ b ∈ bs, b ≠ ".db" ∧ pathJoin root.path b ∉ w.files) →
      (bs.foldl (fun acc folder => ensureOneFolder acc root folder)
        (w, Except.ok ())).2 = Except.ok () ∧
      (∀ b ∈ bs, pathJoin root.path b ∈
        (bs.foldl (fun acc folder => ensureOneFolder acc root folder)
          (w, Except.ok ())).1.dirs) ∧
      (bs.foldl (fun acc folder => ensureOneFolder acc root folder)
        (w, Except.ok ())).1.files = w.files ∧
      ∃ l, (bs.foldl (fun acc folder => ensureOneFolder acc root folder)
        (w, Except.ok ())).1.dirs = w.dirs ++ l
  | [], w, _, _ => ⟨rfl, by simp, rfl, ⟨[], by simp⟩⟩
  | b :: bs, w, hroot, hbs => by
    obtain ⟨hb, hfile⟩ := hbs b (by simp)
    obtain ⟨h2, hmem, hfe, ⟨l1, hext⟩⟩ :=
      ensureOneFolder_base w root b hb hroot hfile
    have hroot1 : root.path ∈
        (ensureOneFolder (w, Except.ok ()) root b).1.dirs := by
      rw [hext]
      exact List.mem_append_left _ hroot
    have hbs1 : ∀ x ∈ bs, x ≠ ".db" ∧ pathJoin root.path x ∉
        (ensureOneFolder (w, Except.ok ()) root b).1.files := by
      intro x hx
      obtain ⟨hx1, hx2⟩ := hbs x (by simp [hx])
      refine ⟨hx1, ?_⟩
      rw [hfe]
      exact hx2
    have hpair : ensureOneFolder (w, Except.ok ()) root b =
        ((ensureOneFolder (w, Except.ok ()) root b).1, Except.ok ()) := by
      rw [Prod.ext_iff]
      exact ⟨rfl, h2⟩
    have hih := ensure_fold root bs
      (ensureOneFolder (w, Except.ok ()) root b).1 hroot1 hbs1
    rw [List.foldl_cons, hpair]
    refine ⟨hih.1, ?_, ?_, ?_⟩
    · intro x hx
      rcases List.mem_cons.mp hx with hxb | hxbs
      · subst hxb
        obtain ⟨l2, hext2⟩ := hih.2.2.2
        rw [hext2]
        exact List.mem_append_left _ hmem
      · exact hih.2.1 x hxbs
    · rw [hih.2.2.1]
      exact hfe
    · obtain ⟨l2, hext2⟩ := hih.2.2.2
      exact ⟨l1 ++ l2, by rw [hext2, hext, List.append_assoc]⟩

/-- `_ensure_default_folders` on a root directory that exists, with no
plain file shadowing a default folder name. -/
theorem ensureDefaultFolders_spec (w : World) (rootP : Path)
    (hroot : rootP ∈ w.dirs)
    (hfiles : ∀ b ∈ BASE_FOLDERS, pathJoin rootP b ∉ w.files) :
    (ensureDefaultFolders w rootP).2 = Except.ok () ∧
    (∀ b ∈ BASE_FOLDERS, pathJoin rootP b ∈
      (ensureDefaultFolders w rootP).1.dirs) ∧
    (ensureDefaultFolders w rootP).1.files = w.files ∧
    ∃ l, (ensureDefaultFolders w rootP).1.dirs = w.dirs ++ l := by
  have hpath := mkFolderInfo_path w rootP
  have hd := mkFolderInfo_dirs w rootP
  have hf := mkFolderInfo_files w rootP
  have h := ensure_fold (mkFolderInfo w rootP).2 BASE_FOLDERS
    (mkFolderInfo w rootP).1
    (by rw [hd, hpath]; exact hroot)
    (by
      intro b hb
      refine ⟨?_, ?_⟩
      · simp only [BASE_FOLDERS, List.mem_cons,
          List.not_mem_nil, or_false] at hb
        rcases hb with h | h | h | h | h <;> subst h <;> decide
      · rw [hf, hpath]
        exact hfiles b hb)
  rw [hpath] at h
  unfold ensureDefaultFolders
  dsimp only
  refine ⟨h.1, h.2.1, ?_, ?_⟩
  · rw [h.2.2.1, hf]
  · obtain ⟨l, hl⟩ := h.2.2.2
    rw [hd] at hl
    exact ⟨l, hl⟩

theorem foldersPath_path (w : World) (cfgDir : Path) :
    (foldersPath w cfgDir).2 = pathJoin cfgDir "messages" := by
  simp only [foldersPath]
  split <;> rfl

theorem foldersPath_mem (w : World) (cfgDir : Path) :
    pathJoin cfgDir "messages" ∈ (foldersPath w cfgDir).1.dirs := by
  simp only [foldersPath]
  by_cases h : w.dirs.contains (pathJoin cfgDir "messages") = true
  · rw [if_pos h]
    exact List.elem_iff.mp h
  · rw [if_neg h]
    exact List.mem_append_right _ (by simp)

theorem foldersPath_files (w : World) (cfgDir : Path) :
    (foldersPath w cfgDir).1.files = w.files := by
  simp only [foldersPath]
  split <;> rfl

/-- C8: after the first construction (`_folders_path` then
`_ensure_default_folders`), the five default folders all exist as
directories under the messages root and no error escaped; running the
same construction again over the resulting state again raises no error
and keeps all five directories. -/
theorem default_folders_exist (w : World) (cfgDir : Path)
    (hfile : ∀ b ∈ BASE_FOLDERS,
      pathJoin (pathJoin cfgDir "messages") b ∉ w.files) :
    (ensureDefaultFolders (foldersPath w cfgDir).1
      (foldersPath w cfgDir).2).2 = Except.ok () ∧
    (∀ b ∈ BASE_FOLDERS, pathJoin (foldersPath w cfgDir).2 b ∈
      (ensureDefaultFolders (foldersPath w cfgDir).1
        (foldersPath w cfgDir).2).1.dirs) ∧
    (ensureDefaultFolders
      (ensureDefaultFolders (foldersPath w cfgDir).1
        (foldersPath w cfgDir).2).1
      (foldersPath w cfgDir).2).2 = Except.ok () ∧
    (∀ b ∈ BASE_FOLDERS, pathJoin (foldersPath w cfgDir).2 b ∈
      (ensureDefaultFolders
        (ensureDefaultFolders (foldersPath w cfgDir).1
          (foldersPath w cfgDir).2).1
        (foldersPath w cfgDir).2).1.dirs) := by
  have hp := foldersPath_path w cfgDir
  have h1 := ensureDefaultFolders_spec (foldersPath w cfgDir).1
    (pathJoin cfgDir "messages") (foldersPath_mem w cfgDir)
    (by
      intro b hb
      rw [foldersPath_files]
      exact hfile b hb)
  have hroot2 : pathJoin cfgDir "messages" ∈
      (ensureDefaultFolders (foldersPath w cfgDir).1
        (pathJoin cfgDir "messages")).1.dirs := by
    obtain ⟨l, hl⟩ := h1.2.2.2
    rw [hl]
    exact List.mem_append_left _ (foldersPath_mem w cfgDir)
  have h2 := ensureDefaultFolders_spec
    (ensureDefaultFolders (foldersPath w cfgDir).1
      (pathJoin cfgDir "messages")).1
    (pathJoin cfgDir "messages") hroot2
    (by
      intro b hb
      rw [h1.2.2.1, foldersPath_files]
      exact hfile b hb)
  rw [hp]
  exact ⟨h1.1, h1.2.1, h2.1, h2.2.1⟩

/-- Witness for C8: both the first and the repeated construction finish
without raising, starting from an empty filesystem. -/
theorem default_folders_exist_witness :
    (ensureDefaultFolders (foldersPath ⟨[], [], [], [], []⟩ ["cfg"]).1
      (foldersPath ⟨[], [], [], [], []⟩ ["cfg"]).2).2 = Except.ok () ∧
    (ensureDefaultFolders
      (ensureDefaultFolders (foldersPath ⟨[], [], [], [], []⟩ ["cfg"]).1
        (foldersPath ⟨[], [], [], [], []⟩ ["cfg"]).2).1
      (foldersPath ⟨[], [], [], [], []⟩ ["cfg"]).2).2 = Except.ok () :=
  ⟨(default_folders_exist ⟨[], [], [], [], []⟩ ["cfg"] (by decide)).1,
    (default_folders_exist ⟨[], [], [], [], []⟩ ["cfg"]
      (by decide)).2.2.1⟩

/-- C10 counterexample: `set_msg_subject` with the value `"100%% sure"`
completes (no `ValueError`), but `get_msg_subject` keyed by the bare
basename returns the interpolated `"100% sure"`, not the argument that
was set — get-after-set is not the identity. -/
theorem subject_interpolation_roundtrip_fails :
    (let w : World := ⟨[["f"]], [], [(["f"], [])], [[]], [(["f"], 0)]⟩
     let i : MessageFolderInfo := ⟨["f"], 0⟩
     let r := setMsgSubjectI w i ["f", "m1"] "100%% sure"
     r.2 = none ∧
     exceptVal (getMsgSubjectI r.1 i [basename ["f", "m1"]]) =
       some "100% sure" ∧
     exceptVal (getMsgSubjectI r.1 i [basename ["f", "m1"]]) ≠
       some "100%% sure") := by
  refine ⟨by decide, by decide, by decide⟩

/-- C10 amended: getting, setting and deleting key the registry by the
basename of the filename argument — each operation via a full path
equals, state and raised errors included, the same operation via the
bare basename, so callers may mix the two interchangeably; and a
subject set via a full path is read back unchanged via the bare name
whenever the value contains no `'%'` (a `'%'` engages `ConfigParser`'s
`BasicInterpolation`: `before_set` may raise `ValueError` and
`before_get` rewrites or raises on the way back). -/
theorem props_key_by_basename (w : World) (self : MessageFolderInfo)
    (f : Path) (prop v s : String)
    (hr : self.cfgRef < w.heap.length) :
    setPropI w self f prop v = setPropI w self [basename f] prop v ∧
    getPropI w self f prop = getPropI w self [basename f] prop ∧
    deleteMsg w self f = deleteMsg w self [basename f] ∧
    (s.data.contains '%' = false →
      getMsgSubjectI (setMsgSubjectI w self f s).1 self [basename f] =
        Except.ok s) := by
  refine ⟨?_, ?_, ?_, ?_⟩
  · simp only [setPropI, setProp]
    rw [basename_single]
  · unfold getPropI
    rw [basename_single]
  · unfold deleteMsg
    rw [basename_single]
  · intro hs
    unfold setMsgSubjectI getMsgSubjectI
    rw [setPropI_ok _ _ _ _ _ (beforeSetOk_no_percent s hs)]
    exact getPropI_setProp_same _ _ _ _ _ _ hr (basename_single _) hs

/-- Witness for the amended C10 at a concrete folder and full path. -/
theorem props_key_by_basename_witness :
    (setPropI ⟨[["f"]], [], [(["f"], [])], [[]], [(["f"], 0)]⟩ ⟨["f"], 0⟩
        ["f", "m1"] "subject" "s" =
      setPropI ⟨[["f"]], [], [(["f"], [])], [[]], [(["f"], 0)]⟩ ⟨["f"], 0⟩
        [basename ["f", "m1"]] "subject" "s") ∧
    (getPropI ⟨[["f"]], [], [(["f"], [])], [[]], [(["f"], 0)]⟩ ⟨["f"], 0⟩
        ["f", "m1"] "subject" =
      getPropI ⟨[["f"]], [], [(["f"], [])], [[]], [(["f"], 0)]⟩ ⟨["f"], 0⟩
        [basename ["f", "m1"]] "subject") ∧
    (deleteMsg ⟨[["f"]], [], [(["f"], [])], [[]], [(["f"], 0)]⟩ ⟨["f"], 0⟩
        ["f", "m1"] =
      deleteMsg ⟨[["f"]], [], [(["f"], [])], [[]], [(["f"], 0)]⟩ ⟨["f"], 0⟩
        [basename ["f", "m1"]]) ∧
    getMsgSubjectI
      (setMsgSubjectI ⟨[["f"]], [], [(["f"], [])], [[]], [(["f"], 0)]⟩
        ⟨["f"], 0⟩ ["f", "m1"] "hello").1
      ⟨["f"], 0⟩ [basename ["f", "m1"]] = Except.ok "hello" := by
  have h := props_key_by_basename
    ⟨[["f"]], [], [(["f"], [])], [[]], [(["f"], 0)]⟩
    ⟨["f"], 0⟩ ["f", "m1"] "subject" "s" "hello" (by decide)
  exact ⟨h.1, h.2.1, h.2.2.1, h.2.2.2 (by decide)⟩

end DRats
